import Mathlib

/-!
Significant-locations pipeline: a shallow embedding of the core of `main.py`: the Spatial Merger (`smart_merge`,
lines 36-76) and the Interval Collapser (`collapse_visits`, lines 101-126),
together with the post-filter on the merged summary (lines 137-138).

Modelling choices:
* Timestamps and durations are rational numbers of minutes
  (`pandas` timestamps support exact subtraction; `duration_min` is
  `(end - start).total_seconds() / 60`).
* Coordinates are rationals.
* `placeID` is an opaque identifier, modelled as `Nat`.
* The geodesic distance between two summary rows comes from the external
  `geopy` library (out of the repository); `smart_merge` takes it as a
  function parameter `distf` and only ever compares its value with the
  threshold, exactly as the source does.
-/

/-- A visit record as parsed from the location history (main.py lines 21-29).
`end` is a reserved word in Lean, hence the quoted field name. -/
structure Visit where
  placeID : Nat
  start : ℚ
  «end» : ℚ
  lat : ℚ
  lng : ℚ
deriving DecidableEq, Repr

/-- Derived field `duration_min` of a visit: `(end - start)` in minutes. -/
def duration_min (v : Visit) : ℚ := v.«end» - v.start

/-- One row of `place_summary` (main.py lines 80-87) as consumed by
`smart_merge`, which reads only `placeID`, `lat`, `lng` (the centroid);
the `num_visits` / `total_duration_min` columns are recomputed from
`df_visits` inside the merger. -/
structure PSRow where
  placeID : Nat
  lat : ℚ
  lng : ℚ
deriving DecidableEq, Repr

/-- Selection of the raw visits of one place identifier (main.py lines 49-50). -/
def visitsOf (visits : List Visit) (pid : Nat) : List Visit :=
  visits.filter (fun v => v.placeID == pid)

/-- Sum of the raw visit durations of a place (main.py lines 56-57). -/
def totalDuration (vs : List Visit) : ℚ :=
  (vs.map duration_min).sum

/-- The nested overlap scan (main.py lines 63-74): some visit of `vs1`
strictly overlaps some visit of `vs2`, with the strict test
`max(start, start) < min(end, end)`.  The source breaks out of both
loops at the first overlap; `List.any` has the same decision semantics. -/
def hasOverlap (vs1 vs2 : List Visit) : Bool :=
  vs1.any (fun v1 => vs2.any (fun v2 =>
    max v1.start v2.start < min v1.«end» v2.«end»))

/-- The per-candidate-pair merge decision of `smart_merge`
(main.py lines 47-74), given the already-computed centroid distance `d`:
inside the inclusive distance gate, first sparse absorption
(`len(visits2) < min_visits`), then the dual-heavy rule
(`total1 > 700 and total2 > 700`), else the time-overlap scan. -/
def shouldMerge (visits : List Visit) (d : ℚ) (thresh : ℚ)
    (minVisits : Nat) (p1 p2 : Nat) : Bool :=
  if d ≤ thresh then
    let visits1 := visitsOf visits p1
    let visits2 := visitsOf visits p2
    if visits2.length < minVisits then true
    else if totalDuration visits1 > 700 ∧ totalDuration visits2 > 700 then true
    else hasOverlap visits1 visits2
  else false

/-- The inner loop of `smart_merge` (main.py lines 44-74) for a fixed seed
`p1`: walk the summary rows, skipping `p2` equal to the seed or already
`used`; a row passing `shouldMerge` is appended to the group and marked
`used`.  Returns the identifiers added to the seed's group and the final
`used` set (as a list). -/
def innerLoop (visits : List Visit) (distf : PSRow → PSRow → ℚ)
    (thresh : ℚ) (minVisits : Nat) (p1 : PSRow) :
    List PSRow → List Nat → List Nat × List Nat
  | [], used => ([], used)
  | p2 :: rest, used =>
    if p1.placeID = p2.placeID ∨ p2.placeID ∈ used then
      innerLoop visits distf thresh minVisits p1 rest used
    else if shouldMerge visits (distf p1 p2) thresh minVisits
        p1.placeID p2.placeID then
      let r := innerLoop visits distf thresh minVisits p1 rest
        (p2.placeID :: used)
      (p2.placeID :: r.1, r.2)
    else
      innerLoop visits distf thresh minVisits p1 rest used

/-- The outer loop of `smart_merge` (main.py lines 40-75): each summary row
not yet `used` seeds a group consisting of itself plus whatever the inner
loop absorbs.  The first list argument is the remaining outer rows; `all`
is the full summary, re-scanned by every inner loop. -/
def smartMergeGo (visits : List Visit) (distf : PSRow → PSRow → ℚ)
    (thresh : ℚ) (minVisits : Nat) (all : List PSRow) :
    List PSRow → List Nat → List (List Nat)
  | [], _ => []
  | p1 :: rest, used =>
    if p1.placeID ∈ used then
      smartMergeGo visits distf thresh minVisits all rest used
    else
      let r := innerLoop visits distf thresh minVisits p1 all used
      (p1.placeID :: r.1) ::
        smartMergeGo visits distf thresh minVisits all rest r.2

/-- Entry point of the Spatial Merger (main.py lines 36-76); the call site
uses the defaults 130 and 2. -/
def smart_merge (visits : List Visit) (summary : List PSRow)
    (distf : PSRow → PSRow → ℚ) (thresh : ℚ) (minVisits : Nat) :
    List (List Nat) :=
  smartMergeGo visits distf thresh minVisits summary summary []

/-! ## Interval Collapser -/

/-- Ordering of visits by `start`, the sort key used by the collapser. -/
def startLE (a b : Visit) : Prop := a.start ≤ b.start

instance : DecidableRel startLE :=
  fun a b => inferInstanceAs (Decidable (a.start ≤ b.start))

instance : IsTotal Visit startLE := ⟨fun a b => le_total a.start b.start⟩

instance : IsTrans Visit startLE := ⟨fun _ _ _ h1 h2 => le_trans h1 h2⟩

/-- Sorting by the start timestamp, as in main.py line 102.  The sweep output
depends only on the multiset of visits ordered by `start`, so a stable
insertion sort models the pandas sort faithfully. -/
def sortStart (g : List Visit) : List Visit :=
  List.insertionSort startLE g

/-- The sweep of `collapse_visits` (main.py lines 106-117) after the first
visit has opened the running window `[cs, ce]`: a visit with
`start ≤ current_end` extends the window, otherwise the window is emitted
and a new one opens at that visit. -/
def sweepGo (cs ce : ℚ) : List Visit → List (ℚ × ℚ)
  | [] => [(cs, ce)]
  | v :: rest =>
    if v.start ≤ ce then sweepGo cs (max ce v.«end») rest
    else (cs, ce) :: sweepGo v.start v.«end» rest

/-- The list `merged` of coalesced windows produced by `collapse_visits`
(main.py lines 101-117). -/
def collapseWindows (g : List Visit) : List (ℚ × ℚ) :=
  match sortStart g with
  | [] => []
  | v :: rest => sweepGo v.start v.«end» rest

/-- Arithmetic mean of a list of rationals (`Series.mean`). -/
def meanQ (xs : List ℚ) : ℚ := xs.sum / xs.length

/-- Result row of `collapse_visits` (main.py lines 121-126). -/
structure CollapseResult where
  lat : ℚ
  lng : ℚ
  num_visits : Nat
  total_duration_min : ℚ
deriving DecidableEq, Repr

/-- Collapse of one merge group (main.py lines 101-126): coalesce the group's
visit windows, then report the mean coordinates, the number of coalesced
windows, and the summed window durations. -/
def collapse_visits (g : List Visit) : CollapseResult :=
  let merged := collapseWindows g
  { lat := meanQ (g.map Visit.lat)
    lng := meanQ (g.map Visit.lng)
    num_visits := merged.length
    total_duration_min := (merged.map (fun w => w.2 - w.1)).sum }

/-- One collapse result per merge group, each over the visits whose
`placeID` lies in the group (the groupby over merged identifiers of
main.py lines 130-136). -/
def groupSummaries (visits : List Visit) (groups : List (List Nat)) :
    List CollapseResult :=
  groups.map (fun g => collapse_visits (visits.filter (fun v => v.placeID ∈ g)))

/-- Post-filter of the merged summary, keeping rows with more than two
coalesced windows (main.py lines 137-138). -/
def merged_summary (visits : List Visit) (groups : List (List Nat)) :
    List CollapseResult :=
  (groupSummaries visits groups).filter (fun r => 2 < r.num_visits)

/-- Windows re-read as visits, for re-running the collapser on its own
output; coordinates and identifier are irrelevant to the sweep. -/
def toVisit (w : ℚ × ℚ) : Visit :=
  { placeID := 0, start := w.1, «end» := w.2, lat := 0, lng := 0 }

example :
    smart_merge
      [⟨0, 0, 10, 0, 0⟩, ⟨1, 100, 110, 0, 0⟩, ⟨1, 200, 210, 0, 0⟩]
      [⟨0, 0, 0⟩, ⟨1, 0, 0⟩] (fun _ _ => 0) 130 2 = [[0], [1, 0]] := by
  simp [smart_merge, smartMergeGo, innerLoop, shouldMerge, visitsOf,
    totalDuration, duration_min, hasOverlap]
  norm_num

example :
    collapseWindows [⟨0, 600, 660, 0, 0⟩, ⟨0, 630, 690, 0, 0⟩] =
      [(600, 690)] := by
  norm_num [collapseWindows, sortStart, List.insertionSort, List.orderedInsert,
    startLE, sweepGo]

/-! ## Decision lemmas for the Spatial Merger -/

/-- Beyond the distance threshold the decision is always negative
(main.py line 48 guards every merge condition). -/
lemma shouldMerge_far {visits : List Visit} {d thresh : ℚ}
    {minVisits : Nat} {p1 p2 : Nat} (hd : thresh < d) :
    shouldMerge visits d thresh minVisits p1 p2 = false := by
  simp only [shouldMerge, if_neg (not_le.2 hd)]

/-- Sparse absorption (main.py lines 51-53): inside the gate, fewer than
`min_visits` raw visits of the candidate force a merge. -/
lemma shouldMerge_sparse {visits : List Visit} {d thresh : ℚ}
    {minVisits : Nat} {p1 p2 : Nat} (hd : d ≤ thresh)
    (hlen : (visitsOf visits p2).length < minVisits) :
    shouldMerge visits d thresh minVisits p1 p2 = true := by
  simp only [shouldMerge, if_pos hd, if_pos hlen]

/-- Dual-heavy rule (main.py lines 54-60): inside the gate, with the sparse
rule not applying, two totals above 700 force a merge. -/
lemma shouldMerge_heavy {visits : List Visit} {d thresh : ℚ}
    {minVisits : Nat} {p1 p2 : Nat} (hd : d ≤ thresh)
    (hlen : ¬ (visitsOf visits p2).length < minVisits)
    (h1 : totalDuration (visitsOf visits p1) > 700)
    (h2 : totalDuration (visitsOf visits p2) > 700) :
    shouldMerge visits d thresh minVisits p1 p2 = true := by
  simp only [shouldMerge, if_pos hd, if_neg hlen, if_pos (And.intro h1 h2)]

/-- Overlap fallback (main.py lines 61-74): inside the gate, with neither
unconditional rule applying, the decision is exactly the overlap scan. -/
lemma shouldMerge_else {visits : List Visit} {d thresh : ℚ}
    {minVisits : Nat} {p1 p2 : Nat} (hd : d ≤ thresh)
    (hlen : ¬ (visitsOf visits p2).length < minVisits)
    (hnh : ¬ (totalDuration (visitsOf visits p1) > 700 ∧
      totalDuration (visitsOf visits p2) > 700)) :
    shouldMerge visits d thresh minVisits p1 p2 =
      hasOverlap (visitsOf visits p1) (visitsOf visits p2) := by
  simp only [shouldMerge, if_pos hd, if_neg hlen, if_neg hnh]

/-- A candidate at the head of the inner loop that is distinct from the
seed, not yet used, and accepted by the decision, joins the group. -/
lemma innerLoop_cons_merge {visits : List Visit} {distf : PSRow → PSRow → ℚ}
    {thresh : ℚ} {minVisits : Nat} {p1 p2 : PSRow} {rest : List PSRow}
    {used : List Nat} (hne : p1.placeID ≠ p2.placeID)
    (hu : p2.placeID ∉ used)
    (hm : shouldMerge visits (distf p1 p2) thresh minVisits
      p1.placeID p2.placeID = true) :
    p2.placeID ∈
      (innerLoop visits distf thresh minVisits p1 (p2 :: rest) used).1 := by
  have hcond : ¬ (p1.placeID = p2.placeID ∨ p2.placeID ∈ used) := by
    rintro (h | h)
    · exact hne h
    · exact hu h
  simp only [innerLoop, if_neg hcond, if_pos hm]
  exact List.mem_cons_self _ _

/-- C3: a candidate pair inside the distance gate with at least
`min_visits` raw visits on the candidate side and both summed raw
durations above 700 minutes is merged into the seed's group
unconditionally; no time-overlap hypothesis is needed. -/
theorem smartMerge_dual_heavy (visits : List Visit)
    (distf : PSRow → PSRow → ℚ) (thresh : ℚ) (minVisits : Nat)
    (p1 p2 : PSRow) (rest : List PSRow) (used : List Nat)
    (hne : p2.placeID ≠ p1.placeID) (hu : p2.placeID ∉ used)
    (hd : distf p1 p2 ≤ thresh)
    (hlen : minVisits ≤ (visitsOf visits p2.placeID).length)
    (h1 : totalDuration (visitsOf visits p1.placeID) > 700)
    (h2 : totalDuration (visitsOf visits p2.placeID) > 700) :
    p2.placeID ∈
      (innerLoop visits distf thresh minVisits p1 (p2 :: rest) used).1 :=
  innerLoop_cons_merge (fun h => hne h.symm) hu
    (shouldMerge_heavy hd (not_lt.2 hlen) h1 h2)

/-- Witness for C3: two places 0 metres apart, no overlapping visits,
counts at `min_visits`, both totals 800 minutes. -/
theorem smartMerge_dual_heavy_witness :
    1 ∈ (innerLoop
      [⟨0, 0, 800, 0, 0⟩, ⟨1, 1000, 1400, 0, 0⟩, ⟨1, 2000, 2400, 0, 0⟩]
      (fun _ _ => 0) 130 2 ⟨0, 0, 0⟩ [⟨1, 0, 0⟩] []).1 := by
  apply smartMerge_dual_heavy
  · decide
  · simp
  · norm_num
  · norm_num [visitsOf]
  · norm_num [visitsOf, totalDuration, duration_min]
  · norm_num [visitsOf, totalDuration, duration_min]

/-- C4: a candidate pair inside the distance gate whose candidate has
strictly fewer than `min_visits` raw visits is merged into the seed's
group unconditionally, with no hypothesis on overlap or durations. -/
theorem smartMerge_sparse_absorb (visits : List Visit)
    (distf : PSRow → PSRow → ℚ) (thresh : ℚ) (minVisits : Nat)
    (p1 p2 : PSRow) (rest : List PSRow) (used : List Nat)
    (hne : p2.placeID ≠ p1.placeID) (hu : p2.placeID ∉ used)
    (hd : distf p1 p2 ≤ thresh)
    (hlen : (visitsOf visits p2.placeID).length < minVisits) :
    p2.placeID ∈
      (innerLoop visits distf thresh minVisits p1 (p2 :: rest) used).1 :=
  innerLoop_cons_merge (fun h => hne h.symm) hu (shouldMerge_sparse hd hlen)

/-- Witness for C4: the dense place 0 absorbs place 1, which has a single
visit that overlaps nothing. -/
theorem smartMerge_sparse_absorb_witness :
    1 ∈ (innerLoop
      [⟨0, 0, 10, 0, 0⟩, ⟨0, 20, 30, 0, 0⟩, ⟨1, 100, 110, 0, 0⟩]
      (fun _ _ => 0) 130 2 ⟨0, 0, 0⟩ [⟨1, 0, 0⟩] []).1 := by
  apply smartMerge_sparse_absorb
  · decide
  · simp
  · norm_num
  · norm_num [visitsOf]

/-- C5: inside the distance gate, when neither sparse absorption nor the
dual-heavy rule applies, the decision is positive exactly when some visit
of the seed strictly overlaps some visit of the candidate under the test
`max(start, start) < min(end, end)`. -/
theorem smartMerge_overlap_decision (visits : List Visit) (d thresh : ℚ)
    (minVisits : Nat) (p1 p2 : Nat) (hd : d ≤ thresh)
    (hlen : minVisits ≤ (visitsOf visits p2).length)
    (hnh : ¬ (totalDuration (visitsOf visits p1) > 700 ∧
      totalDuration (visitsOf visits p2) > 700)) :
    shouldMerge visits d thresh minVisits p1 p2 = true ↔
      ∃ v1 ∈ visitsOf visits p1, ∃ v2 ∈ visitsOf visits p2,
        max v1.start v2.start < min v1.«end» v2.«end» := by
  rw [shouldMerge_else hd (not_lt.2 hlen) hnh]
  simp [hasOverlap, List.any_eq_true]

/-- Witness for C5: one overlapping pair makes the decision positive, and
removing the overlap makes it negative. -/
theorem smartMerge_overlap_decision_witness :
    shouldMerge [⟨0, 0, 60, 0, 0⟩, ⟨1, 30, 90, 0, 0⟩, ⟨1, 200, 260, 0, 0⟩]
      0 130 2 0 1 = true := by
  refine (smartMerge_overlap_decision _ 0 130 2 0 1 (by norm_num)
    (by norm_num [visitsOf])
    (by norm_num [visitsOf, totalDuration, duration_min])).mpr ?_
  refine ⟨⟨0, 0, 60, 0, 0⟩, by norm_num [visitsOf], ⟨1, 30, 90, 0, 0⟩,
    by norm_num [visitsOf], by norm_num⟩

/-- C6: the distance gate is inclusive.  Strictly beyond the threshold no
candidate is ever merged, whatever the other conditions; exactly at the
threshold the gate passes, so a pair satisfying a merge condition (here
sparse absorption) is merged. -/
theorem smartMerge_distance_gate (visits : List Visit) (d thresh : ℚ)
    (minVisits : Nat) (p1 p2 : Nat) :
    (thresh < d → shouldMerge visits d thresh minVisits p1 p2 = false) ∧
    (d = thresh → (visitsOf visits p2).length < minVisits →
      shouldMerge visits d thresh minVisits p1 p2 = true) :=
  ⟨fun hd => shouldMerge_far hd,
   fun hd hlen => shouldMerge_sparse (le_of_eq hd) hlen⟩

/-- Witness for C6: at 130 metres against a 130 metre threshold the pair
merges; at 131 metres it never does. -/
theorem smartMerge_distance_gate_witness :
    shouldMerge [] 130 130 2 0 1 = true ∧
    shouldMerge [] 131 130 2 0 1 = false := by
  constructor
  · exact (smartMerge_distance_gate [] 130 130 2 0 1).2 rfl (by decide)
  · exact (smartMerge_distance_gate [] 131 130 2 0 1).1 (by norm_num)

/-- C9: the final merged summary keeps exactly the collapse results with
more than two coalesced windows; a row with exactly two is dropped and
every row with three or more is kept. -/
theorem merged_summary_strict_filter (visits : List Visit)
    (groups : List (List Nat)) (r : CollapseResult) :
    r ∈ merged_summary visits groups ↔
      r ∈ groupSummaries visits groups ∧ 2 < r.num_visits := by
  simp [merged_summary, List.mem_filter]

/-! ## Sweep lemmas for the Interval Collapser -/

/-- Ordering of emitted windows by start. -/
def winStartLE (w1 w2 : ℚ × ℚ) : Prop := w1.1 ≤ w2.1

instance : IsTrans (ℚ × ℚ) winStartLE := ⟨fun _ _ _ h1 h2 => le_trans h1 h2⟩

/-- Positive separation of consecutive emitted windows: the next window
starts strictly after the previous one ends. -/
def winGap (w1 w2 : ℚ × ℚ) : Prop := w1.2 < w2.1

/-- The sweep always emits at least one window, the first of which starts
at the running start and ends no earlier than the running end. -/
lemma sweepGo_cons_eq (l : List Visit) : ∀ cs ce : ℚ,
    ∃ e t, sweepGo cs ce l = (cs, e) :: t ∧ ce ≤ e := by
  induction l with
  | nil => exact fun cs ce => ⟨ce, [], rfl, le_rfl⟩
  | cons v rest ih =>
    intro cs ce
    by_cases h : v.start ≤ ce
    · obtain ⟨e, t, heq, hle⟩ := ih cs (max ce v.«end»)
      refine ⟨e, t, ?_, le_trans (le_max_left _ _) hle⟩
      simp only [sweepGo, if_pos h, heq]
    · refine ⟨ce, sweepGo v.start v.«end» rest, ?_, le_rfl⟩
      simp only [sweepGo, if_neg h]

/-- Consecutive windows emitted by the sweep are separated by positive
gaps: a window is only closed when the next visit starts strictly later
than the current end, and that start becomes the next window's start. -/
lemma sweepGo_chain (l : List Visit) : ∀ cs ce : ℚ,
    List.Chain' winGap (sweepGo cs ce l) := by
  induction l with
  | nil => intro cs ce; simp [sweepGo]
  | cons v rest ih =>
    intro cs ce
    by_cases h : v.start ≤ ce
    · simpa only [sweepGo, if_pos h] using ih cs (max ce v.«end»)
    · obtain ⟨e, t, heq, -⟩ := sweepGo_cons_eq rest v.start v.«end»
      simp only [sweepGo, if_neg h, heq, List.chain'_cons]
      refine ⟨not_le.1 h, ?_⟩
      rw [← heq]
      exact ih v.start v.«end»

/-- Every window the sweep emits satisfies start ≤ end, provided the
running window does and every remaining visit does. -/
lemma sweepGo_valid (l : List Visit) : ∀ cs ce : ℚ, cs ≤ ce →
    (∀ v ∈ l, v.start ≤ v.«end») →
    ∀ w ∈ sweepGo cs ce l, w.1 ≤ w.2 := by
  induction l with
  | nil =>
    intro cs ce hce _ w hw
    simp only [sweepGo, List.mem_singleton] at hw
    simpa [hw] using hce
  | cons v rest ih =>
    intro cs ce hce hv w hw
    by_cases h : v.start ≤ ce
    · rw [sweepGo, if_pos h] at hw
      exact ih cs (max ce v.«end») (le_trans hce (le_max_left _ _))
        (fun u hu => hv u (List.mem_cons_of_mem _ hu)) w hw
    · rw [sweepGo, if_neg h, List.mem_cons] at hw
      rcases hw with hw | hw
      · simpa [hw] using hce
      · exact ih v.start v.«end» (hv v (List.mem_cons_self _ _))
          (fun u hu => hv u (List.mem_cons_of_mem _ hu)) w hw

/-- The sweep emits at most one window per visit, plus the running one. -/
lemma sweepGo_length (l : List Visit) : ∀ cs ce : ℚ,
    (sweepGo cs ce l).length ≤ l.length + 1 := by
  induction l with
  | nil => intro cs ce; simp [sweepGo]
  | cons v rest ih =>
    intro cs ce
    by_cases h : v.start ≤ ce
    · rw [sweepGo, if_pos h]
      exact le_trans (ih cs (max ce v.«end»)) (by simp)
    · rw [sweepGo, if_neg h]
      simpa [List.length_cons] using ih v.start v.«end»

/-- Over a start-sorted visit list whose starts all dominate the running
start, the emitted windows have nondecreasing starts. -/
lemma sweepGo_starts (l : List Visit) : ∀ cs ce : ℚ,
    (∀ v ∈ l, cs ≤ v.start) → List.Pairwise startLE l →
    List.Chain' winStartLE (sweepGo cs ce l) := by
  induction l with
  | nil => intro cs ce _ _; simp [sweepGo]
  | cons v rest ih =>
    intro cs ce hcs hp
    rw [List.pairwise_cons] at hp
    by_cases h : v.start ≤ ce
    · rw [sweepGo, if_pos h]
      exact ih cs (max ce v.«end»)
        (fun u hu => hcs u (List.mem_cons_of_mem _ hu)) hp.2
    · obtain ⟨e, t, heq, -⟩ := sweepGo_cons_eq rest v.start v.«end»
      rw [sweepGo, if_neg h, heq, List.chain'_cons]
      refine ⟨hcs v (List.mem_cons_self _ _), ?_⟩
      rw [← heq]
      exact ih v.start v.«end» (fun u hu => hp.1 u hu) hp.2

/-- Gap separation lifted to `collapseWindows`. -/
lemma collapseWindows_chain (g : List Visit) :
    List.Chain' winGap (collapseWindows g) := by
  cases hs : sortStart g with
  | nil => simp [collapseWindows, hs]
  | cons v rest =>
    simp only [collapseWindows, hs]
    exact sweepGo_chain rest v.start v.«end»

/-- Start-monotonicity lifted to `collapseWindows`. -/
lemma collapseWindows_starts (g : List Visit) :
    List.Chain' winStartLE (collapseWindows g) := by
  have hsorted : List.Sorted startLE (sortStart g) :=
    List.sorted_insertionSort startLE g
  cases hs : sortStart g with
  | nil => simp [collapseWindows, hs]
  | cons v rest =>
    rw [hs, List.sorted_cons] at hsorted
    simp only [collapseWindows, hs]
    exact sweepGo_starts rest v.start v.«end» hsorted.1 hsorted.2

/-- Window validity lifted to `collapseWindows`. -/
lemma collapseWindows_valid (g : List Visit)
    (hv : ∀ v ∈ g, v.start ≤ v.«end») :
    ∀ w ∈ collapseWindows g, w.1 ≤ w.2 := by
  have hv' : ∀ v ∈ sortStart g, v.start ≤ v.«end» := by
    intro v hvmem
    exact hv v ((List.mem_insertionSort startLE).1 hvmem)
  cases hs : sortStart g with
  | nil => simp [collapseWindows, hs]
  | cons v rest =>
    rw [hs] at hv'
    simp only [collapseWindows, hs]
    exact sweepGo_valid rest v.start v.«end»
      (hv' v (List.mem_cons_self _ _))
      (fun u hu => hv' u (List.mem_cons_of_mem _ hu))

/-- The number of coalesced windows never exceeds the number of visits. -/
lemma collapseWindows_length (g : List Visit) :
    (collapseWindows g).length ≤ g.length := by
  have hlen : (sortStart g).length = g.length :=
    List.length_insertionSort startLE g
  cases hs : sortStart g with
  | nil => simp [collapseWindows, hs]
  | cons v rest =>
    rw [hs] at hlen
    simp only [collapseWindows, hs]
    calc (sweepGo v.start v.«end» rest).length ≤ rest.length + 1 :=
          sweepGo_length rest v.start v.«end»
      _ = g.length := by rw [← hlen, List.length_cons]

/-- C10: for valid visits, every emitted window satisfies start ≤ end,
consecutive windows are separated by strictly positive gaps (so their
starts are strictly increasing), and the coalesced visit count never
exceeds the raw visit count. -/
theorem collapse_windows_separated (g : List Visit)
    (hv : ∀ v ∈ g, v.start ≤ v.«end») :
    (∀ w ∈ collapseWindows g, w.1 ≤ w.2) ∧
    List.Chain' winGap (collapseWindows g) ∧
    (collapse_visits g).num_visits ≤ g.length :=
  ⟨collapseWindows_valid g hv, collapseWindows_chain g,
    collapseWindows_length g⟩

/-- Witness for C10 on two separated visits. -/
theorem collapse_windows_separated_witness :
    (∀ w ∈ collapseWindows [⟨0, 540, 550, 0, 0⟩, ⟨0, 600, 610, 0, 0⟩],
      w.1 ≤ w.2) ∧
    List.Chain' winGap
      (collapseWindows [⟨0, 540, 550, 0, 0⟩, ⟨0, 600, 610, 0, 0⟩]) ∧
    (collapse_visits [⟨0, 540, 550, 0, 0⟩, ⟨0, 600, 610, 0, 0⟩]).num_visits ≤
      2 := by
  refine collapse_windows_separated _ ?_
  intro v hvmem
  simp only [List.mem_cons, List.mem_singleton, List.not_mem_nil,
    or_false] at hvmem
  rcases hvmem with h | h
  · norm_num [h]
  · norm_num [h]

/-- C2: on a group of two valid visits ordered by start whose second
start lies at or before the first end (overlapping or exactly adjacent),
the collapser sorts by start and unions the pair into the single window
from the first start to the larger end, with one coalesced visit and the
window length as total duration. -/
theorem collapse_adjacent_union (v1 v2 : Visit)
    (hv1 : v1.start ≤ v1.«end») (hv2 : v2.start ≤ v2.«end»)
    (hs : v1.start ≤ v2.start) (hadj : v2.start ≤ v1.«end») :
    collapseWindows [v1, v2] = [(v1.start, max v1.«end» v2.«end»)] ∧
    (collapse_visits [v1, v2]).num_visits = 1 ∧
    (collapse_visits [v1, v2]).total_duration_min =
      max v1.«end» v2.«end» - v1.start := by
  have hsort : sortStart [v1, v2] = [v1, v2] := by
    simp [sortStart, List.insertionSort, List.orderedInsert, startLE, hs]
  have hw : collapseWindows [v1, v2] = [(v1.start, max v1.«end» v2.«end»)] := by
    simp only [collapseWindows, hsort, sweepGo, if_pos hadj]
  refine ⟨hw, ?_, ?_⟩
  · simp [collapse_visits, hw]
  · simp [collapse_visits, hw]

/-- Witness for C2: the spec's example, visits 10:00-11:00 and
10:30-11:30 in minutes of the day, collapses to one window of 90
minutes, not 120. -/
theorem collapse_adjacent_union_witness :
    (collapse_visits [⟨0, 600, 660, 0, 0⟩, ⟨0, 630, 690, 0, 0⟩]).num_visits
        = 1 ∧
    (collapse_visits [⟨0, 600, 660, 0, 0⟩, ⟨0, 630, 690, 0, 0⟩]
        ).total_duration_min = 90 := by
  have h := collapse_adjacent_union ⟨0, 600, 660, 0, 0⟩ ⟨0, 630, 690, 0, 0⟩
    (by norm_num) (by norm_num) (by norm_num) (by norm_num)
  refine ⟨h.2.1, ?_⟩
  rw [h.2.2]
  rw [max_eq_right (by norm_num : (660 : ℚ) ≤ 690)]
  norm_num

/-- Amended C7: the core performs no validation of `end < start`.  A
single-visit group flows through the sweep unchanged, its window being
exactly the visit's own pair of timestamps with duration `end - start`,
whatever their order. -/
theorem collapse_no_validation (v : Visit) :
    collapseWindows [v] = [(v.start, v.«end»)] ∧
    (collapse_visits [v]).num_visits = 1 ∧
    (collapse_visits [v]).total_duration_min = v.«end» - v.start := by
  have hw : collapseWindows [v] = [(v.start, v.«end»)] := by
    simp [collapseWindows, sortStart, List.insertionSort, List.orderedInsert,
      sweepGo]
  refine ⟨hw, ?_, ?_⟩
  · simp [collapse_visits, hw]
  · simp [collapse_visits, hw]

/-- Counterexample to C7: a visit with `end < start` is not rejected; the
sweep of the Interval Collapser runs on it and silently produces a
negative-duration window, contradicting the fail-fast claim. -/
theorem collapse_no_validation_cex :
    (collapse_visits [⟨0, 600, 540, 0, 0⟩]).num_visits = 1 ∧
    (collapse_visits [⟨0, 600, 540, 0, 0⟩]).total_duration_min = -60 := by
  constructor
  · norm_num [collapse_visits, collapseWindows, sortStart,
      List.insertionSort, List.orderedInsert, sweepGo]
  · norm_num [collapse_visits, collapseWindows, sortStart,
      List.insertionSort, List.orderedInsert, sweepGo]

/-- Witness for the amended C7 at a concrete malformed visit. -/
theorem collapse_no_validation_witness :
    collapseWindows [⟨0, 600, 540, 0, 0⟩] = [(600, 540)] ∧
    (collapse_visits [⟨0, 600, 540, 0, 0⟩]).num_visits = 1 ∧
    (collapse_visits [⟨0, 600, 540, 0, 0⟩]).total_duration_min =
      540 - 600 := by
  exact collapse_no_validation ⟨0, 600, 540, 0, 0⟩

/-- Re-sweeping a gap-separated window list (read back as visits) changes
nothing: every next window starts strictly after the current end, so no
window is ever extended. -/
lemma sweepGo_gapped (l : List (ℚ × ℚ)) : ∀ cs ce : ℚ,
    List.Chain' winGap ((cs, ce) :: l) →
    sweepGo cs ce (l.map toVisit) = (cs, ce) :: l := by
  induction l with
  | nil => intro cs ce _; rfl
  | cons w r ih =>
    intro cs ce hc
    rw [List.chain'_cons] at hc
    have hlt : ce < w.1 := hc.1
    show sweepGo cs ce (toVisit w :: r.map toVisit) = (cs, ce) :: w :: r
    rw [sweepGo]
    have hns : ¬ (toVisit w).start ≤ ce := not_le.2 hlt
    rw [if_neg hns]
    have htail : sweepGo (toVisit w).start (toVisit w).«end» (r.map toVisit)
        = (w.1, w.2) :: r := ih w.1 w.2 hc.2
    rw [htail]

/-- A window list with nondecreasing starts, read back as visits, is
already sorted by start. -/
lemma sortStart_map_toVisit (ws : List (ℚ × ℚ))
    (h : List.Chain' winStartLE ws) :
    sortStart (ws.map toVisit) = ws.map toVisit := by
  apply List.Sorted.insertionSort_eq
  have hp : List.Pairwise winStartLE ws := List.chain'_iff_pairwise.1 h
  exact List.pairwise_map.2 hp

/-- Re-collapsing a start-sorted, gap-separated window list reproduces it. -/
lemma collapseWindows_map_toVisit (ws : List (ℚ × ℚ))
    (hst : List.Chain' winStartLE ws) (hgap : List.Chain' winGap ws) :
    collapseWindows (ws.map toVisit) = ws := by
  have hsort := sortStart_map_toVisit ws hst
  cases ws with
  | nil => simp [collapseWindows, sortStart, List.insertionSort]
  | cons w r =>
    simp only [List.map_cons] at hsort
    simp only [collapseWindows, List.map_cons, hsort]
    exact sweepGo_gapped r w.1 w.2 hgap

/-- C8: the Interval Collapser is idempotent.  Re-running the collapsing
sweep on its own emitted windows, treated as visits, yields exactly the
same windows, the same coalesced visit count and the same total duration:
no further merging occurs. -/
theorem collapse_idempotent (g : List Visit) :
    collapseWindows ((collapseWindows g).map toVisit) = collapseWindows g ∧
    (collapse_visits ((collapseWindows g).map toVisit)).num_visits =
      (collapse_visits g).num_visits ∧
    (collapse_visits ((collapseWindows g).map toVisit)).total_duration_min =
      (collapse_visits g).total_duration_min := by
  have h : collapseWindows ((collapseWindows g).map toVisit) =
      collapseWindows g :=
    collapseWindows_map_toVisit _ (collapseWindows_starts g)
      (collapseWindows_chain g)
  exact ⟨h, by simp [collapse_visits, h], by simp [collapse_visits, h]⟩

/-! ## Coverage of the Spatial Merger -/

/-- Identifiers in the used set on return from the inner loop were either
already used on entry or were just added to the group. -/
lemma innerLoop_used_mem (visits : List Visit) (distf : PSRow → PSRow → ℚ)
    (thresh : ℚ) (minVisits : Nat) (p1 : PSRow) (rows : List PSRow) :
    ∀ used p, p ∈ (innerLoop visits distf thresh minVisits p1 rows used).2 →
      p ∈ used ∨ p ∈ (innerLoop visits distf thresh minVisits p1 rows used).1 := by
  induction rows with
  | nil => intro used p h; exact Or.inl h
  | cons p2 rest ih =>
    intro used p h
    by_cases h1 : p1.placeID = p2.placeID ∨ p2.placeID ∈ used
    · rw [innerLoop, if_pos h1] at h ⊢
      exact ih used p h
    · by_cases h2 : shouldMerge visits (distf p1 p2) thresh minVisits
        p1.placeID p2.placeID = true
      · simp only [innerLoop, if_neg h1, if_pos h2] at h ⊢
        rcases ih (p2.placeID :: used) p h with hin | hin
        · rcases List.mem_cons.1 hin with heq | hin
          · exact Or.inr (heq ▸ List.mem_cons_self _ _)
          · exact Or.inl hin
        · exact Or.inr (List.mem_cons_of_mem _ hin)
      · rw [innerLoop, if_neg h1, if_neg h2] at h ⊢
        exact ih used p h

/-- Every identifier of the remaining summary rows that is not yet used
ends up in some group of the outer loop. -/
lemma smartMergeGo_cover (visits : List Visit) (distf : PSRow → PSRow → ℚ)
    (thresh : ℚ) (minVisits : Nat) (all : List PSRow) (rest : List PSRow) :
    ∀ used pid, pid ∈ rest.map PSRow.placeID → pid ∉ used →
      pid ∈ (smartMergeGo visits distf thresh minVisits all rest used).flatten := by
  induction rest with
  | nil => intro used pid h _; simp at h
  | cons p1 r ih =>
    intro used pid hmem hnu
    rw [List.map_cons, List.mem_cons] at hmem
    by_cases hu : p1.placeID ∈ used
    · rw [smartMergeGo, if_pos hu]
      rcases hmem with heq | hmem
      · exact absurd (heq ▸ hu) hnu
      · exact ih used pid hmem hnu
    · simp only [smartMergeGo, if_neg hu, List.flatten_cons, List.mem_append]
      rcases hmem with heq | hmem
      · exact Or.inl (heq ▸ List.mem_cons_self _ _)
      · by_cases hpu : pid ∈
          (innerLoop visits distf thresh minVisits p1 all used).2
        · rcases innerLoop_used_mem visits distf thresh minVisits p1 all
            used pid hpu with hin | hin
          · exact absurd hin hnu
          · exact Or.inl (List.mem_cons_of_mem _ hin)
        · exact Or.inr (ih _ pid hmem hpu)

/-- Amended C1: the groups returned by the Spatial Merger cover the
summary — every place identifier of the summary table appears in at least
one output group.  (Uniqueness fails: a place that seeds its own group
can later be absorbed a second time into a later seed's group, as the
counterexample shows, so the output need not be a partition.) -/
theorem smart_merge_covers (visits : List Visit) (summary : List PSRow)
    (distf : PSRow → PSRow → ℚ) (thresh : ℚ) (minVisits : Nat) (pid : Nat)
    (h : pid ∈ summary.map PSRow.placeID) :
    pid ∈ (smart_merge visits summary distf thresh minVisits).flatten :=
  smartMergeGo_cover visits distf thresh minVisits summary summary [] pid h
    (List.not_mem_nil pid)

/-- Witness for the amended C1 at a two-place summary. -/
theorem smart_merge_covers_witness :
    0 ∈ (smart_merge
      [⟨0, 0, 10, 0, 0⟩, ⟨1, 100, 110, 0, 0⟩, ⟨1, 200, 210, 0, 0⟩]
      [⟨0, 0, 0⟩, ⟨1, 0, 0⟩] (fun _ _ => 0) 130 2).flatten := by
  apply smart_merge_covers
  decide

/-- Counterexample to C1: with distinct summary identifiers 0 (one visit)
and 1 (two visits) at the same centroid, place 0 first seeds its own
group (no merge condition holds towards place 1), and is then absorbed a
second time into the group seeded by place 1 via sparse absorption.  It
therefore appears in two distinct output groups — the output is not a
partition. -/
theorem smart_merge_partition_cex :
    (List.map PSRow.placeID [(⟨0, 0, 0⟩ : PSRow), ⟨1, 0, 0⟩]).Nodup ∧
    0 ∈ List.map PSRow.placeID [(⟨0, 0, 0⟩ : PSRow), ⟨1, 0, 0⟩] ∧
    smart_merge
      [⟨0, 0, 10, 0, 0⟩, ⟨1, 100, 110, 0, 0⟩, ⟨1, 200, 210, 0, 0⟩]
      [⟨0, 0, 0⟩, ⟨1, 0, 0⟩] (fun _ _ => 0) 130 2 = [[0], [1, 0]] ∧
    List.count 0
      (smart_merge
        [⟨0, 0, 10, 0, 0⟩, ⟨1, 100, 110, 0, 0⟩, ⟨1, 200, 210, 0, 0⟩]
        [⟨0, 0, 0⟩, ⟨1, 0, 0⟩] (fun _ _ => 0) 130 2).flatten = 2 := by
  have h : smart_merge
      [⟨0, 0, 10, 0, 0⟩, ⟨1, 100, 110, 0, 0⟩, ⟨1, 200, 210, 0, 0⟩]
      [⟨0, 0, 0⟩, ⟨1, 0, 0⟩] (fun _ _ => 0) 130 2 = [[0], [1, 0]] := by
    simp [smart_merge, smartMergeGo, innerLoop, shouldMerge, visitsOf,
      totalDuration, duration_min, hasOverlap]
    norm_num
  refine ⟨by decide, by decide, h, ?_⟩
  rw [h]
  decide
